import Mathlib

/-!
Shallow embedding of the multi-scale autoregressive decoding engine of
`src/models/var.py` (class `VAR`), written to settle the frozen claims about
its scale schedule, CFG logit combination, cache lifecycle, speculative
draft/refine logits routing, beam pruning, likelihood scoring and seeding.

The transformer backbone, the codec and the sampling helper
(`models/basic_var.py`, `models/vqvae.py`, `models/helpers.py`) are external
collaborators that are not part of the source under verification; following
the spec they are abstracted as oracle functions / explicit state, while every
piece of control flow, indexing and arithmetic below is translated from
`src/models/var.py` itself.
-/

namespace VarModel

/-! ## Scale schedule (`VAR.__init__`, lines 40-49) -/

/-- Loop body of `VAR.__init__` lines 43-47: starting from the running offset
`cur`, append `(cur, cur + pn ** 2)` for each side length and advance `cur`. -/
def beginEndsAux : Nat → List Nat → List (Nat × Nat)
  | _, [] => []
  | cur, pn :: rest => (cur, cur + pn * pn) :: beginEndsAux (cur + pn * pn) rest

/-- `self.begin_ends` computed by the constructor. -/
def begin_ends (patch_nums : List Nat) : List (Nat × Nat) :=
  beginEndsAux 0 patch_nums

/-- Cumulative token-count boundary: `offsetAt pns s` is the sum of
`pn ** 2` over the first `s` entries of the schedule (the begin of block `s`). -/
def offsetAt (patch_nums : List Nat) (s : Nat) : Nat :=
  ((patch_nums.take s).map fun pn => pn * pn).sum

/-- `self.L = sum(pn ** 2 for pn in self.patch_nums)` (line 41). -/
def total_len (patch_nums : List Nat) : Nat :=
  (patch_nums.map fun pn => pn * pn).sum

/-- The default schedule `patch_nums=(1, 2, 3, 4, 5, 6, 8, 10, 13, 16)` (line 28). -/
def default_patch_nums : List Nat := [1, 2, 3, 4, 5, 6, 8, 10, 13, 16]

/-- The hard-coded re-entry boundary table of the refine/mid variants
(`exit_points = [1,5,14,30,55,91,155,255,424,680]`, lines 619, 811, 918). -/
def exit_points : List Nat := [1, 5, 14, 30, 55, 91, 155, 255, 424, 680]

theorem offsetAt_zero (pns : List Nat) : offsetAt pns 0 = 0 := rfl

theorem offsetAt_succ_cons (pn : Nat) (rest : List Nat) (s : Nat) :
    offsetAt (pn :: rest) (s + 1) = pn * pn + offsetAt rest s := by
  simp [offsetAt, List.take]

theorem offsetAt_length (pns : List Nat) :
    offsetAt pns pns.length = total_len pns := by
  simp [offsetAt, total_len]

theorem beginEndsAux_eq (pns : List Nat) : ∀ cur : Nat,
    beginEndsAux cur pns =
      (List.range pns.length).map fun s => (cur + offsetAt pns s, cur + offsetAt pns (s + 1)) := by
  induction pns with
  | nil => intro cur; simp [beginEndsAux]
  | cons pn rest ih =>
    intro cur
    simp only [beginEndsAux, List.length_cons, List.range_succ_eq_map, List.map_cons,
      List.map_map]
    refine List.cons_eq_cons.mpr ⟨?_, ?_⟩
    · simp [offsetAt_zero, offsetAt_succ_cons, Nat.add_comm]
    · rw [ih (cur + pn * pn)]
      apply List.map_congr_left
      intro s _
      simp only [Function.comp_apply, Nat.succ_eq_add_one, offsetAt_succ_cons, Prod.mk.injEq]
      constructor <;> omega

theorem begin_ends_eq (pns : List Nat) :
    begin_ends pns = (List.range pns.length).map fun s => (offsetAt pns s, offsetAt pns (s + 1)) := by
  rw [begin_ends, beginEndsAux_eq]
  simp

theorem offsetAt_succ_of_lt (pns : List Nat) : ∀ s : Nat, s < pns.length →
    offsetAt pns (s + 1) = offsetAt pns s + pns.getD s 0 * pns.getD s 0 := by
  induction pns with
  | nil => intro s hs; simp at hs
  | cons pn rest ih =>
    intro s hs
    cases s with
    | zero => simp [offsetAt_zero, offsetAt_succ_cons, List.getD]
    | succ s2 =>
      have hs2 : s2 < rest.length := by simpa using hs
      simp only [offsetAt_succ_cons, List.getD_cons_succ]
      rw [ih s2 hs2]
      omega

theorem beginEndsAux_lengths_sum (pns : List Nat) : ∀ cur : Nat,
    ((beginEndsAux cur pns).map fun be => be.2 - be.1).sum = total_len pns := by
  induction pns with
  | nil => intro cur; simp [beginEndsAux, total_len]
  | cons pn rest ih =>
    intro cur
    simp only [beginEndsAux, List.map_cons, List.sum_cons, total_len, Nat.add_sub_cancel_left]
    rw [ih (cur + pn * pn)]
    rfl

/-- C6: the per-scale blocks computed at construction are exactly
`(offset s, offset (s+1))` for `s < S`; block `0` begins at `0`; block `s`
has length `patch_nums[s]^2`; the final boundary and the sum of all block
lengths equal `L = total_len`.  Together these say the blocks partition
`[0, L)` into `S` contiguous blocks. -/
theorem begin_ends_partition (pns : List Nat) :
    begin_ends pns = ((List.range pns.length).map fun s => (offsetAt pns s, offsetAt pns (s + 1)))
    ∧ offsetAt pns 0 = 0
    ∧ offsetAt pns pns.length = total_len pns
    ∧ ((begin_ends pns).map fun be => be.2 - be.1).sum = total_len pns
    ∧ (∀ s, s < pns.length →
        offsetAt pns (s + 1) = offsetAt pns s + pns.getD s 0 * pns.getD s 0) := by
  refine ⟨begin_ends_eq pns, offsetAt_zero pns, offsetAt_length pns, ?_, offsetAt_succ_of_lt pns⟩
  exact beginEndsAux_lengths_sum pns 0

/-- Witness for C6 at the concrete schedule `[1,2,3]` of spec section 8. -/
theorem begin_ends_partition_witness :
    offsetAt [1, 2, 3] (1 + 1) = offsetAt [1, 2, 3] 1 + [1, 2, 3].getD 1 0 * [1, 2, 3].getD 1 0
    ∧ offsetAt [1, 2, 3] ([1, 2, 3] : List Nat).length = total_len [1, 2, 3] :=
  ⟨(begin_ends_partition [1, 2, 3]).2.2.2.2 1 (by decide),
   (begin_ends_partition [1, 2, 3]).2.2.1⟩

/-- C4 counterexample: the claim asserts the table entry equals
`offset[entry_num+1]` for every schedule; for the schedule `[2]` and
`entry_num = 0` the table gives `1` while `offset[1] = 4`. -/
theorem exit_points_schedule_cex :
    exit_points.getD 0 0 ≠ offsetAt [2] (0 + 1) := by decide

/-- C4 amended: for the default schedule `(1,2,3,4,5,6,8,10,13,16)` the
hard-coded table entry selected by `entry_num` equals the schedule's
cumulative boundary `offset[entry_num+1]` for every `entry_num < 10`. -/
theorem exit_points_default_schedule (e : Nat) (he : e < 10) :
    exit_points.getD e 0 = offsetAt default_patch_nums (e + 1) := by
  interval_cases e <;> decide

/-- Witness for C4 amended at `entry_num = 2`. -/
theorem exit_points_default_schedule_witness :
    exit_points.getD 2 0 = offsetAt default_patch_nums (2 + 1) :=
  exit_points_default_schedule 2 (by decide)

/-! ## CFG logit combination (`autoregressive_infer_cfg`, lines 150-200) -/

/-- Classifier-head outputs of the backbone at each scale of the decoding loop
(`logits_BlV = self.get_logits(x, cond_BD)`, line 180).  The backbone and head
are external collaborators (spec section 1), so they are abstracted as an
oracle indexed by scale and by the row of the CFG-doubled batch; each entry
stands elementwise for one `(position, vocab)` logit. -/
structure GenEnv where
  rawLogits : Nat → Nat → ℚ

/-- `ratio = si / self.num_stages_minus_1` (line 170), with
`num_stages_minus_1 = len(patch_nums) - 1`. -/
def ratioAt (S si : Nat) : ℚ := (si : ℚ) / ((S - 1 : Nat) : ℚ)

/-- `t = cfg * ratio` (line 182). -/
def cfgT (cfg : ℚ) (S si : Nat) : ℚ := cfg * ratioAt S si

/-- The CFG combination applied to a conditional/unconditional logit pair:
`(1+t) * c - t * u` (line 183). -/
def cfgMix (t c u : ℚ) : ℚ := (1 + t) * c - t * u

/-- Row `i < B` of the combined logits of scale `si`:
`logits_BlV = (1+t) * logits_BlV[:B] - t * logits_BlV[B:]` (lines 182-183)
reads rows `i` and `B + i` of the raw head output. -/
def combinedLogits (env : GenEnv) (B S : Nat) (cfg : ℚ) (si i : Nat) : ℚ :=
  cfgMix (cfgT cfg S si) (env.rawLogits si i) (env.rawLogits si (B + i))

/-- Layout of the class-label row of the CFG-doubled batch, from
`torch.cat((label_B, torch.full_like(label_B, fill_value=self.num_classes)))`
(line 156): rows below `B` carry the caller's labels (the conditional branch),
rows from `B` on carry the unconditional sentinel class. -/
def doubledLabel (B numClasses : Nat) (labelB : Nat → Nat) (i : Nat) : Nat :=
  if i < B then labelB i else numClasses

theorem ratioAt_zero (S : Nat) : ratioAt S 0 = 0 := by
  simp [ratioAt]

theorem cfgT_zero (cfg : ℚ) (S : Nat) : cfgT cfg S 0 = 0 := by
  simp [cfgT, ratioAt_zero]

/-- C5: at every scale step `si` the combined logits equal
`(1+t) * logits[:B] - t * logits[B:]` with `t = cfg * si / (S-1)`, the first
`B` batch rows being the conditional branch; at `si = 0` the factor `t`
vanishes and the combined logits equal the conditional branch's raw logits
exactly. -/
theorem cfg_combination (env : GenEnv) (B S numClasses : Nat) (cfg : ℚ)
    (labelB : Nat → Nat) (si i : Nat) (hi : i < B) :
    doubledLabel B numClasses labelB i = labelB i
    ∧ doubledLabel B numClasses labelB (B + i) = numClasses
    ∧ combinedLogits env B S cfg si i
        = (1 + cfg * ((si : ℚ) / ((S - 1 : Nat) : ℚ))) * env.rawLogits si i
          - cfg * ((si : ℚ) / ((S - 1 : Nat) : ℚ)) * env.rawLogits si (B + i)
    ∧ combinedLogits env B S cfg 0 i = env.rawLogits 0 i := by
  refine ⟨by simp [doubledLabel, hi], by simp [doubledLabel], rfl, ?_⟩
  simp [combinedLogits, cfgMix, cfgT_zero]

/-- Witness for C5 at a concrete environment, `B = 2`, `S = 10`, `cfg = 3/2`,
scale `si = 4`, row `i = 1`. -/
theorem cfg_combination_witness :
    doubledLabel 2 1000 (fun _ => 7) 1 = 7
    ∧ doubledLabel 2 1000 (fun _ => 7) (2 + 1) = 1000
    ∧ combinedLogits ⟨fun si i => (si : ℚ) + i⟩ 2 10 (3 / 2) 4 1
        = (1 + (3 / 2 : ℚ) * ((4 : ℚ) / ((10 - 1 : Nat) : ℚ)))
            * GenEnv.rawLogits ⟨fun si i => (si : ℚ) + i⟩ 4 1
          - (3 / 2 : ℚ) * ((4 : ℚ) / ((10 - 1 : Nat) : ℚ))
            * GenEnv.rawLogits ⟨fun si i => (si : ℚ) + i⟩ 4 (2 + 1)
    ∧ combinedLogits ⟨fun si i => (si : ℚ) + i⟩ 2 10 (3 / 2) 0 1
        = GenEnv.rawLogits ⟨fun si i => (si : ℚ) + i⟩ 0 1 :=
  cfg_combination ⟨fun si i => (si : ℚ) + i⟩ 2 10 1000 (3 / 2) (fun _ => 7) 4 1 (by decide)

/-! ## Speculative draft/refine logits routing

`autoregressive_inpaint_draft` (lines 540-585) stores, for every completed
scale, the CFG-combined logits in `logits_hub`; `autoregressive_inpaint_refine`
(lines 637-688) concatenates that hub with the freshly CFG-combined re-entry
slice and samples each scale `a ≤ entry_num` from the corresponding slice.
`autoregressive_infer_cfg_refine` (lines 826-861) has no hub: its re-entry
backbone pass recomputes the head logits of every scale up to `entry_num`,
CFG is applied in place only to the conditional `entry_num` slice
(line 845), and the sampling loop (lines 848-851) reads the conditional half
`logits_BlV[:B]` for every scale `a ≤ entry_num`. -/

/-- Head outputs of the two passes, abstracted per scale block and batch half:
`true` is the conditional half `[:B]`, `false` the unconditional half `[B:]`.
`draftRaw` are the draft pass's head outputs, `refineRaw` those of the refine
pass's backbone calls (re-entry pass and continuation scales). -/
structure LogitsOracle where
  draftRaw : Nat → Bool → ℚ
  refineRaw : Nat → Bool → ℚ

/-- Entry of the draft's `logits_hub` for scale `s`
(`logits_hub.append(logits_BlV)` after the CFG combination, lines 557-560). -/
def draftHub (o : LogitsOracle) (cfg : ℚ) (S s : Nat) : ℚ :=
  cfgMix (cfgT cfg S s) (o.draftRaw s true) (o.draftRaw s false)

/-- The per-scale logits sequence built at the re-entry step of
`autoregressive_inpaint_refine` (lines 652-656), with `entry_num` equal to the
draft's exit scale so that `torch.cat([logits_hub, logits_BlV], dim=1)` aligns
slice offsets with scale boundaries: the stored hub entries for scales
`0 .. entry_num - 1`, followed by the CFG-combined recomputed `entry_num`
slice. -/
def inpaintRefineCatLogits (o : LogitsOracle) (cfg : ℚ) (S entry : Nat) : List ℚ :=
  ((List.range entry).map fun s => draftHub o cfg S s)
    ++ [cfgMix (cfgT cfg S entry) (o.refineRaw entry true) (o.refineRaw entry false)]

/-- Sampling input of scale `a` in the re-entry loop of
`autoregressive_inpaint_refine` (lines 657-660). -/
def inpaintRefineSampleInput (o : LogitsOracle) (cfg : ℚ) (S entry a : Nat) : ℚ :=
  (inpaintRefineCatLogits o cfg S entry).getD a 0

/-- The full head logits of `autoregressive_infer_cfg_refine`'s re-entry pass
over scales `0 .. entry_num` after the in-place update
`logits_BlV[:B, cur_L-pn*pn:cur_L] = (1+t) * ... - t * ...` (line 845): only
the conditional half of the `entry_num` slice is overwritten with the CFG
combination; every other entry keeps the recomputed raw value. -/
def cfgRefineUpdatedLogits (o : LogitsOracle) (cfg : ℚ) (S entry s : Nat)
    (condHalf : Bool) : ℚ :=
  if condHalf = true ∧ s = entry then
    cfgMix (cfgT cfg S entry) (o.refineRaw entry true) (o.refineRaw entry false)
  else o.refineRaw s condHalf

/-- Sampling input of scale `a` in the re-entry loop of
`autoregressive_infer_cfg_refine` (lines 848-851): the slice
`logits_BlV[:B, new_L : new_L + patch_nums[a] ** 2]` of the updated logits. -/
def cfgRefineSampleInput (o : LogitsOracle) (cfg : ℚ) (S entry a : Nat) : ℚ :=
  cfgRefineUpdatedLogits o cfg S entry a true

/-- Combined logits of a continuation scale `s > entry_num` in either refine
variant (lines 663-667 and 856-860), which repeat the standard loop's CFG
combination on the scale's fresh head output. -/
def refineContinueSampleInput (o : LogitsOracle) (cfg : ℚ) (S s : Nat) : ℚ :=
  cfgMix (cfgT cfg S s) (o.refineRaw s true) (o.refineRaw s false)

/-- Number of sampling calls issued by the re-entry loop
`for a, b in enumerate(self.patch_nums[0:entry_num+1])` (lines 658-660 and
849-851): one per scale `0 .. entry_num`. -/
def refineEntrySampleCount (entry : Nat) : Nat :=
  (List.range (entry + 1)).length

/-- A concrete oracle on which the draft and refine passes produce identical
raw head outputs: conditional logits `1`, unconditional logits `0`
at every scale, in both passes. -/
def oracleOne : LogitsOracle :=
  ⟨fun _ h => if h then 1 else 0, fun _ h => if h then 1 else 0⟩

/-- C2 counterexample: with `S = 10` scales, `cfg = 9` and re-entry scale
`entry_num = 2`, the sampling input that `autoregressive_infer_cfg_refine`
uses for the earlier scale `a = 1` differs from the draft's stored hub entry
for that scale, even though the recomputed head outputs are identical to the
draft's — the claim that earlier scales are sampled from the draft's stored
logits hub is false for this refine variant (which takes no hub argument at
all). -/
theorem refine_hub_reuse_cex :
    cfgRefineSampleInput oracleOne 9 10 2 1 ≠ draftHub oracleOne 9 10 1 := by
  norm_num [cfgRefineSampleInput, cfgRefineUpdatedLogits, draftHub, oracleOne,
    cfgMix, cfgT, ratioAt]

/-- C2 amended: in `autoregressive_inpaint_refine` (with `entry_num` equal to
the draft's exit scale) the sampling input of every earlier scale `a <
entry_num` is the draft's stored hub entry unchanged — in particular it does
not depend on the refine pass's recomputed head outputs — and scale
`entry_num` is sampled from the freshly CFG-combined re-entry logits; one
sample is drawn per scale `0 .. entry_num`; in
`autoregressive_infer_cfg_refine` there is no logits hub: earlier scales are
sampled from the recomputed conditional raw logits of the re-entry pass, CFG
being applied only to the `entry_num` slice.  In both variants the
continuation scales `s > entry_num` use the standard per-scale CFG
combination. -/
theorem refine_logits_routing (o o2 : LogitsOracle) (cfg : ℚ) (S entry a s : Nat)
    (ha : a < entry) (_hs : entry < s) (hdr : o.draftRaw = o2.draftRaw) :
    inpaintRefineSampleInput o cfg S entry a = draftHub o cfg S a
    ∧ inpaintRefineSampleInput o cfg S entry a = inpaintRefineSampleInput o2 cfg S entry a
    ∧ inpaintRefineSampleInput o cfg S entry entry
        = cfgMix (cfgT cfg S entry) (o.refineRaw entry true) (o.refineRaw entry false)
    ∧ refineEntrySampleCount entry = entry + 1
    ∧ cfgRefineSampleInput o cfg S entry a = o.refineRaw a true
    ∧ cfgRefineSampleInput o cfg S entry entry
        = cfgMix (cfgT cfg S entry) (o.refineRaw entry true) (o.refineRaw entry false)
    ∧ refineContinueSampleInput o cfg S s
        = cfgMix (cfgT cfg S s) (o.refineRaw s true) (o.refineRaw s false) := by
  have hub_get : inpaintRefineSampleInput o cfg S entry a = draftHub o cfg S a := by
    unfold inpaintRefineSampleInput inpaintRefineCatLogits
    rw [List.getD_append]
    · rw [List.getD_eq_getElem?_getD]
      simp [ha]
    · simpa using ha
  refine ⟨hub_get, ?_, ?_, by simp [refineEntrySampleCount], ?_, ?_, rfl⟩
  · have hub_get2 : inpaintRefineSampleInput o2 cfg S entry a = draftHub o2 cfg S a := by
      unfold inpaintRefineSampleInput inpaintRefineCatLogits
      rw [List.getD_append]
      · rw [List.getD_eq_getElem?_getD]
        simp [ha]
      · simpa using ha
    rw [hub_get, hub_get2]
    unfold draftHub
    rw [hdr]
  · unfold inpaintRefineSampleInput inpaintRefineCatLogits
    rw [List.getD_eq_getElem?_getD]
    simp
  · unfold cfgRefineSampleInput cfgRefineUpdatedLogits
    simp [Nat.ne_of_lt ha]
  · unfold cfgRefineSampleInput cfgRefineUpdatedLogits
    simp

/-- Witness for C2 amended at the concrete oracle, `cfg = 9`, `S = 10`,
`entry_num = 2`, earlier scale `a = 1`, continuation scale `s = 3`. -/
theorem refine_logits_routing_witness :
    inpaintRefineSampleInput oracleOne 9 10 2 1 = draftHub oracleOne 9 10 1
    ∧ inpaintRefineSampleInput oracleOne 9 10 2 1 = inpaintRefineSampleInput oracleOne 9 10 2 1
    ∧ inpaintRefineSampleInput oracleOne 9 10 2 2
        = cfgMix (cfgT 9 10 2) (oracleOne.refineRaw 2 true) (oracleOne.refineRaw 2 false)
    ∧ refineEntrySampleCount 2 = 2 + 1
    ∧ cfgRefineSampleInput oracleOne 9 10 2 1 = oracleOne.refineRaw 1 true
    ∧ cfgRefineSampleInput oracleOne 9 10 2 2
        = cfgMix (cfgT 9 10 2) (oracleOne.refineRaw 2 true) (oracleOne.refineRaw 2 false)
    ∧ refineContinueSampleInput oracleOne 9 10 3
        = cfgMix (cfgT 9 10 3) (oracleOne.refineRaw 3 true) (oracleOne.refineRaw 3 false) :=
  refine_logits_routing oracleOne oracleOne 9 10 2 1 3 (by decide) (by decide) rfl

/-! ## KV-cache lifecycle

Every generation function brackets its scale loop with
`for b in self.blocks: b.attn.kv_caching(True)` before and
`for b in self.blocks: b.attn.kv_caching(False)` after; only
`autoregressive_infer_cfg_draft_beamsearch` places the loop in a
`try/finally` whose `finally` runs `kv_caching(False)` and `reset_cache()`
on every block (lines 1280-1284).  While caching is on, each block's forward
appends the current scale's keys/values to its cache.  A failing backbone
step (spec section 7 lists `NumericInstability` and `ResourceExhaustion` as
propagated errors) is modelled as an exceptional exit at a chosen scale
index. -/

/-- Cache-relevant state of one backbone block's attention. -/
structure BlockCache where
  caching : Bool
  cacheLen : Nat
deriving DecidableEq, Repr

/-- Modelled from the spec: `kv_caching` is defined in `models/basic_var.py`,
which is not under `src/`; per spec section 4.3, `enable()` switches the block
into append-mode and `disable()` clears all cached state and reverts to
stateless attention. -/
def kv_caching (enable : Bool) (c : BlockCache) : BlockCache :=
  if enable then { c with caching := true } else { caching := false, cacheLen := 0 }

/-- Modelled from the spec: `reset_cache()` (interface listed in spec
section 6, implementation in `models/basic_var.py`, not under `src/`)
discards the cached key/value entries. -/
def reset_cache (c : BlockCache) : BlockCache := { c with cacheLen := 0 }

/-- One block's forward while decoding scale of side `pn`: with caching on it
appends the `pn * pn` new tokens' keys/values; with caching off it is
stateless. -/
def blockAppend (l : Nat) (c : BlockCache) : BlockCache :=
  if c.caching then { c with cacheLen := c.cacheLen + l } else c

def blocksEnable (bs : List BlockCache) : List BlockCache := bs.map (kv_caching true)

def blocksDisable (bs : List BlockCache) : List BlockCache := bs.map (kv_caching false)

def blocksReset (bs : List BlockCache) : List BlockCache := bs.map reset_cache

def blocksAppend (l : Nat) (bs : List BlockCache) : List BlockCache := bs.map (blockAppend l)

/-- The scale loop `for si, pn in enumerate(self.patch_nums)`, restricted to
its cache effects: the draft/mid variants break out at `stopAt` (`if si ==
exit_num: break`, line 542/738, or `if si > entry_num: break`, line 935); a
backbone error at scale `failAt` aborts the loop, carrying the cache state at
the moment the exception propagates. -/
def cacheScaleLoop (stopAt failAt : Option Nat) :
    Nat → List Nat → List BlockCache → Except (List BlockCache) (List BlockCache)
  | _, [], bs => .ok bs
  | si, pn :: rest, bs =>
    if stopAt = some si then .ok bs
    else if failAt = some si then .error bs
    else cacheScaleLoop stopAt failAt (si + 1) rest (blocksAppend (pn * pn) bs)

/-- Cache lifecycle of `autoregressive_infer_cfg` (lines 166-203),
`autoregressive_infer_inpaint` (357-393), `autoregressive_inpaint_refine`
(635-686) and `autoregressive_infer_cfg_refine` (824-879) when `stopAt =
none`, and of `autoregressive_infer_cfg_draft` (735-776, `stopAt = some
exit_num`), `autoregressive_inpaint_draft` (539-584) and
`autoregressive_infer_cfg_mid` (931-986, `stopAt = some (entry_num + 1)`):
enable every block, run the loop, and disable every block after the loop —
with no `try/finally`, so an exception propagates without the disable step. -/
def plainCacheRun (stopAt : Option Nat) (pns : List Nat) (failAt : Option Nat)
    (bs : List BlockCache) : Except (List BlockCache) (List BlockCache) :=
  match cacheScaleLoop stopAt failAt 0 pns (blocksEnable bs) with
  | .ok bs2 => .ok (blocksDisable bs2)
  | .error bs2 => .error bs2

/-- Cache lifecycle of `autoregressive_infer_cfg` / `autoregressive_infer_inpaint`
and the refine variants: full loop, no early break. -/
def inferCfgCache (pns : List Nat) (failAt : Option Nat) (bs : List BlockCache) :
    Except (List BlockCache) (List BlockCache) :=
  plainCacheRun none pns failAt bs

/-- Cache lifecycle of `autoregressive_infer_cfg_draft` and
`autoregressive_inpaint_draft`: loop broken at `exit_num`, then
`kv_caching(False)` on every block before returning the partial canvas and
hubs (lines 774-777 and 581-585). -/
def draftCache (pns : List Nat) (exitNum : Nat) (failAt : Option Nat)
    (bs : List BlockCache) : Except (List BlockCache) (List BlockCache) :=
  plainCacheRun (some exitNum) pns failAt bs

/-- Cache lifecycle of `autoregressive_infer_cfg_draft_beamsearch`
(lines 1126-1284): the loop is inside `try/finally`, and the `finally` clause
runs `kv_caching(False)` and `reset_cache()` on every block on both the
normal and the exceptional path. -/
def beamSearchCache (pns : List Nat) (exitNum : Nat) (failAt : Option Nat)
    (bs : List BlockCache) : Except (List BlockCache) (List BlockCache) :=
  match cacheScaleLoop (some exitNum) failAt 0 pns (blocksEnable bs) with
  | .ok bs2 => .ok (blocksReset (blocksDisable bs2))
  | .error bs2 => .error (blocksReset (blocksDisable bs2))

/-- The cache state observable after the call completes, whether it returned
normally or propagated an exception. -/
def cacheOutcome (e : Except (List BlockCache) (List BlockCache)) : List BlockCache :=
  match e with
  | .ok bs => bs
  | .error bs => bs

/-- The claim's postcondition: every block reports caching disabled and an
empty cache. -/
def allDisabledEmpty (bs : List BlockCache) : Bool :=
  bs.all fun c => !c.caching && c.cacheLen == 0

theorem allDisabledEmpty_blocksDisable (bs : List BlockCache) :
    allDisabledEmpty (blocksDisable bs) = true := by
  induction bs with
  | nil => rfl
  | cons c rest ih =>
    simp only [allDisabledEmpty, blocksDisable, List.map_cons, List.all_cons, kv_caching] at *
    simpa using ih

theorem allDisabledEmpty_reset_blocksDisable (bs : List BlockCache) :
    allDisabledEmpty (blocksReset (blocksDisable bs)) = true := by
  induction bs with
  | nil => rfl
  | cons c rest ih =>
    simp only [allDisabledEmpty, blocksReset, blocksDisable, List.map_cons, List.all_cons,
      kv_caching, reset_cache] at *
    simpa using ih

/-- C1 counterexample: a run of `autoregressive_infer_cfg` on the schedule
`[1,2,3]` whose backbone raises at scale `1` propagates the exception with
the single block still in caching mode holding one cached token — the
claimed postcondition (all blocks disabled with empty caches) fails for an
error exit. -/
theorem cache_discipline_cex :
    allDisabledEmpty (cacheOutcome
      (inferCfgCache [1, 2, 3] (some 1) [{ caching := false, cacheLen := 0 }])) = false := by
  decide

/-- C1 amended: every generation variant that returns normally leaves all
blocks with caching disabled and an empty cache, and the beam-search variant
guarantees this on every exit, including an error raised mid-loop; the other
variants propagate a mid-loop error with the caches untouched (no
`try/finally`). -/
theorem cache_discipline (pns : List Nat) (stopAt failAt : Option Nat) (exitNum : Nat)
    (bs bs2 bs3 : List BlockCache)
    (hok : plainCacheRun stopAt pns failAt bs = .ok bs2)
    (hdr : draftCache pns exitNum failAt bs = .ok bs3) :
    allDisabledEmpty bs2 = true
    ∧ allDisabledEmpty bs3 = true
    ∧ allDisabledEmpty (cacheOutcome (beamSearchCache pns exitNum failAt bs)) = true := by
  refine ⟨?_, ?_, ?_⟩
  · unfold plainCacheRun at hok
    cases h : cacheScaleLoop stopAt failAt 0 pns (blocksEnable bs) with
    | ok bsl =>
      rw [h] at hok
      cases hok
      exact allDisabledEmpty_blocksDisable bsl
    | error bsl => rw [h] at hok; cases hok
  · unfold draftCache plainCacheRun at hdr
    cases h : cacheScaleLoop (some exitNum) failAt 0 pns (blocksEnable bs) with
    | ok bsl =>
      rw [h] at hdr
      cases hdr
      exact allDisabledEmpty_blocksDisable bsl
    | error bsl => rw [h] at hdr; cases hdr
  · unfold beamSearchCache
    cases h : cacheScaleLoop (some exitNum) failAt 0 pns (blocksEnable bs) with
    | ok bsl => simp only [cacheOutcome]; exact allDisabledEmpty_reset_blocksDisable bsl
    | error bsl => simp only [cacheOutcome]; exact allDisabledEmpty_reset_blocksDisable bsl

/-- Witness for C1 amended: a complete non-failing run on the schedule
`[1,2,3]` with one block. -/
theorem cache_discipline_witness :
    allDisabledEmpty [{ caching := false, cacheLen := 0 }] = true
    ∧ allDisabledEmpty [{ caching := false, cacheLen := 0 }] = true
    ∧ allDisabledEmpty (cacheOutcome
        (beamSearchCache [1, 2, 3] 2 none [{ caching := false, cacheLen := 0 }])) = true :=
  cache_discipline [1, 2, 3] none none 2 [{ caching := false, cacheLen := 0 }]
    [{ caching := false, cacheLen := 0 }] [{ caching := false, cacheLen := 0 }]
    rfl rfl

/-- C3 counterexample: `autoregressive_infer_cfg_draft` on the schedule
`[1,2,3]` with `exit_num = 2` returns normally with its block reporting
caching *disabled* (lines 774-777 run `kv_caching(False)` before the
`return`), refuting the claim that caching is still enabled at the moment of
return. -/
theorem draft_returns_caching_enabled_cex :
    draftCache [1, 2, 3] 2 none [{ caching := false, cacheLen := 0 }]
      = .ok [{ caching := false, cacheLen := 0 }]
    ∧ BlockCache.caching { caching := false, cacheLen := 0 } = false :=
  ⟨rfl, rfl⟩

/-- C3 amended: both draft calls themselves disable (and thereby clear) every
block's KV caching before returning their partial canvas and hubs; the caller
receives the blocks with caching off. -/
theorem draft_returns_caching_disabled (pns : List Nat) (exitNum : Nat)
    (failAt : Option Nat) (bs bs2 : List BlockCache)
    (hok : draftCache pns exitNum failAt bs = .ok bs2) :
    allDisabledEmpty bs2 = true := by
  unfold draftCache plainCacheRun at hok
  cases h : cacheScaleLoop (some exitNum) failAt 0 pns (blocksEnable bs) with
  | ok bsl =>
    rw [h] at hok
    cases hok
    exact allDisabledEmpty_blocksDisable bsl
  | error bsl => rw [h] at hok; cases hok

/-- Witness for C3 amended: the draft run on `[1,2,3]` with `exit_num = 2`. -/
theorem draft_returns_caching_disabled_witness :
    allDisabledEmpty [{ caching := false, cacheLen := 0 }] = true :=
  draft_returns_caching_disabled [1, 2, 3] 2 none [{ caching := false, cacheLen := 0 }]
    [{ caching := false, cacheLen := 0 }] rfl

/-! ## Beam search (`autoregressive_infer_cfg_draft_beamsearch`, lines 1096-1293) -/

/-- Batch-size transition of one scale step of the beam-search loop: each of
the scales `si < 3` multiplies the batch by `beamwidth` (`B *= beamwidth`,
line 1171), and the transition scale `si == 3` sets
`B = original_B = B // active_beams` (lines 1185, 1212), where `active_beams`
holds the value `beamwidth` assigned by the last expansion (line 1172); later
scales leave the batch unchanged. -/
def beamStepBatch (w si B : Nat) : Nat :=
  if si < 3 then B * w else if si = 3 then B / w else B

/-- Batch size after running the beam-search scale loop up to (but excluding)
`exit_num`, starting from batch `B0`. -/
def beamBatchAfter (w exitNum B0 : Nat) : Nat :=
  (List.range exitNum).foldl (fun B si => beamStepBatch w si B) B0

/-- `tensor.max(dim=-1)[0]` over one position's vocabulary logits. -/
def listMax : List ℚ → ℚ
  | [] => 0
  | x :: xs => xs.foldl max x

/-- `scores = logits_BlV.max(dim=-1)[0].sum(dim=1)` (line 1180): for beam row
`i`, the sum over positions of the per-position maximum logit, where
`bl i` lists row `i`'s per-position vocabulary logits. -/
def beamScore (bl : Nat → List (List ℚ)) (i : Nat) : ℚ :=
  ((bl i).map listMax).sum

/-- `scores.view(-1, beamwidth).max(dim=1)[1]` (lines 1181-1182): the
first-occurrence index of the maximal value of `f` among `0 .. w - 1`. -/
def argmaxIdx (f : Nat → ℚ) : Nat → Nat
  | 0 => 0
  | 1 => 0
  | n + 2 =>
    let j := argmaxIdx f (n + 1)
    if f j < f (n + 1) then n + 1 else j

/-- `selected_indices = base_indices + best_beam_indices` with
`base_indices = arange(original_B) * beamwidth` (lines 1186-1187): the row
kept for group `g` of `w` adjacent sibling rows. -/
def selectedRow (bl : Nat → List (List ℚ)) (w g : Nat) : Nat :=
  g * w + argmaxIdx (fun j => beamScore bl (g * w + j)) w

theorem argmaxIdx_lt (f : Nat → ℚ) : ∀ w : Nat, 0 < w → argmaxIdx f w < w := by
  intro w
  induction w with
  | zero => intro h; omega
  | succ n ih =>
    intro _
    cases n with
    | zero => simp [argmaxIdx]
    | succ m =>
      simp only [argmaxIdx]
      split
      · omega
      · have := ih (by omega)
        omega

theorem le_argmaxIdx (f : Nat → ℚ) : ∀ w j : Nat, j < w → f j ≤ f (argmaxIdx f w) := by
  intro w
  induction w with
  | zero => intro j hj; omega
  | succ n ih =>
    intro j hj
    cases n with
    | zero =>
      have : j = 0 := by omega
      subst this
      simp [argmaxIdx]
    | succ m =>
      simp only [argmaxIdx]
      rcases Nat.lt_or_ge j (m + 1) with hjm | hjm
      · have hle := ih j hjm
        split
        · exact le_of_lt (lt_of_le_of_lt hle (by assumption))
        · exact hle
      · have : j = m + 1 := by omega
        subst this
        split
        · exact le_refl _
        · exact le_of_not_lt (by assumption)

theorem beamBatchAfter_succ (w n B0 : Nat) :
    beamBatchAfter w (n + 1) B0 = beamStepBatch w n (beamBatchAfter w n B0) := by
  unfold beamBatchAfter
  rw [List.range_succ, List.foldl_append]
  rfl

/-- C8 counterexample: with one original batch item and `beamwidth = 2`, the
batch size right after the transition-scale prune is `4`, not the original
`1`: the loop multiplies the batch by the width at each of the scales
`0, 1, 2` but the prune divides it by the width only once. -/
theorem beam_prune_batch_cex : beamBatchAfter 2 4 1 ≠ 1 := by decide

theorem beamBatchAfter_after_prune (w B0 : Nat) (hw : 0 < w) :
    ∀ e : Nat, 3 < e → beamBatchAfter w e B0 = B0 * (w * w) := by
  intro e
  induction e with
  | zero => intro h; omega
  | succ n ih =>
    intro hn
    rcases Nat.lt_or_ge n 4 with h4 | h4
    · have hn3 : n = 3 := by omega
      subst hn3
      have hlist : List.range 4 = [0, 1, 2, 3] := rfl
      unfold beamBatchAfter
      rw [hlist]
      simp only [List.foldl_cons, List.foldl_nil, beamStepBatch]
      norm_num
      have hmul : B0 * w * w * w = B0 * (w * w) * w := by ring
      rw [hmul, Nat.mul_div_cancel _ hw]
    · rw [beamBatchAfter_succ, ih (by omega)]
      unfold beamStepBatch
      have h1 : ¬ n < 3 := by omega
      have h2 : n ≠ 3 := by omega
      simp [h1, h2]

/-- C8 amended: at the transition scale each group of `beamwidth` *adjacent*
sibling rows is scored by the sum over positions of the per-position maximum
logit and exactly one row per group — one with maximal score — is kept
(`selectedRow` lands inside its group and its score dominates every
sibling); but because the batch was expanded by `beamwidth` at each of the
scales `0, 1, 2` while the prune divides by `beamwidth` only once, the batch
size after the prune is `B0 * beamwidth^2`, not the original `B0` (unless
`beamwidth = 1`).  The post-prune cache surgery and its ×2 CFG replication
run only under a `hasattr(b.attn, 'k_cache')` guard on attributes of the
external attention module. -/
theorem beam_prune (w B0 e : Nat) (bl : Nat → List (List ℚ)) (g j : Nat)
    (hw : 0 < w) (he : 3 < e) (hj : j < w) :
    beamBatchAfter w e B0 = B0 * (w * w)
    ∧ g * w ≤ selectedRow bl w g
    ∧ selectedRow bl w g < (g + 1) * w
    ∧ beamScore bl (g * w + j) ≤ beamScore bl (selectedRow bl w g) := by
  refine ⟨beamBatchAfter_after_prune w B0 hw e he, Nat.le_add_right _ _, ?_, ?_⟩
  · have := argmaxIdx_lt (fun j2 => beamScore bl (g * w + j2)) w hw
    unfold selectedRow
    have hgw : (g + 1) * w = g * w + w := by ring
    omega
  · exact le_argmaxIdx (fun j2 => beamScore bl (g * w + j2)) w j hj

/-- Fixed per-row logits used to witness the beam-prune theorem. -/
def beamLogitsW : Nat → List (List ℚ) := fun i => [[(i : ℚ)]]

/-- Witness for C8 amended at `beamwidth = 2`, one original batch item,
`exit_num = 5`, group `0`, sibling `1`. -/
theorem beam_prune_witness :
    beamBatchAfter 2 5 1 = 1 * (2 * 2)
    ∧ 0 * 2 ≤ selectedRow beamLogitsW 2 0
    ∧ selectedRow beamLogitsW 2 0 < (0 + 1) * 2
    ∧ beamScore beamLogitsW (0 * 2 + 1) ≤ beamScore beamLogitsW (selectedRow beamLogitsW 2 0) :=
  beam_prune 2 1 5 beamLogitsW 0 1 (by decide) (by decide) (by decide)

/-! ## Likelihood scoring (`compute_nll`, lines 397-496) -/

/-- The positional offset computed by `compute_nll` (line 448):
`offset = sum(self.patch_nums[:scale_idx])**2` — the square of the sum of the
side lengths before `scale_idx`. -/
def compute_nll_offset (pns : List Nat) (scaleIdx : Nat) : Nat :=
  ((pns.take scaleIdx).sum) ^ 2

/-- C9: the trained positional layout places scale `scale_idx` at the
cumulative boundary `offset[scale_idx] = sum of patch_nums[i]^2 for i <
scale_idx` (the constructor's `begin_ends`), but `compute_nll` slices
`pos_1LC`/`lvl_1L` starting at the square of the sum of the side lengths: at
`scale_idx = 2` on the default schedule the code uses offset `(1+2)^2 = 9`
while the schedule boundary is `1^2 + 2^2 = 5`. -/
theorem compute_nll_offset_bug :
    compute_nll_offset default_patch_nums 2 = 9
    ∧ offsetAt default_patch_nums 2 = 5
    ∧ compute_nll_offset default_patch_nums 2 ≠ offsetAt default_patch_nums 2 := by
  decide

/-- Label masking at the top of `compute_nll` (lines 425-429):
`torch.where(torch.rand(B) < self.cond_drop_rate, num_classes, label_B)`.
The `torch.rand(B)` call passes no generator, so the draws come from the
process-global RNG, and `compute_nll` accepts no seed parameter; the draws
are therefore an ambient input of the model. -/
def maskedLabels (rate : ℚ) (numClasses : Nat) (labels : List Nat) (draws : List ℚ) :
    List Nat :=
  List.zipWith (fun lab d => if d < rate then numClasses else lab) labels draws

/-- `compute_nll` as a function of its conditioning: `nllOf` abstracts the
deterministic remainder of the function (backbone pass, log-softmax, gather,
mean over target tokens, lines 430-496) as a map from the masked labels to
the returned scalar. -/
def compute_nll_model (nllOf : List Nat → ℚ) (rate : ℚ) (numClasses : Nat)
    (labels : List Nat) (draws : List ℚ) : ℚ :=
  nllOf (maskedLabels rate numClasses labels draws)

theorem maskedLabels_zero_rate (numClasses : Nat) :
    ∀ (labels : List Nat) (draws : List ℚ), draws.length = labels.length →
      (∀ d ∈ draws, 0 ≤ d) → maskedLabels 0 numClasses labels draws = labels := by
  intro labels
  induction labels with
  | nil => intro draws _ _; simp [maskedLabels]
  | cons lab rest ih =>
    intro draws hlen hpos
    cases draws with
    | nil => simp at hlen
    | cons d ds =>
      have hd : ¬ d < 0 := not_lt.mpr (hpos d (by simp))
      simp only [maskedLabels, List.zipWith_cons_cons, hd, if_false]
      have := ih ds (by simpa using hlen) (fun x hx => hpos x (by simp [hx]))
      simpa [maskedLabels] using this

/-- C10: with `cond_drop_rate = 0` the label masking is the identity (the
draws of `torch.rand` are nonnegative), so `compute_nll` is a deterministic
function of its arguments, always conditioned on the supplied labels; with
`cond_drop_rate > 0` two calls with identical arguments can see different
masked labels — a label distinct from the sentinel is kept under one ambient
draw and replaced by the sentinel class under another — and hence can return
different NLL values. -/
theorem compute_nll_randomness (rate : ℚ) (numClasses lab : Nat)
    (labels : List Nat) (draws : List ℚ) (nllOf : List Nat → ℚ)
    (hlen : draws.length = labels.length) (hpos : ∀ d ∈ draws, 0 ≤ d)
    (hr : 0 < rate) (hlab : lab ≠ numClasses) :
    maskedLabels 0 numClasses labels draws = labels
    ∧ compute_nll_model nllOf 0 numClasses labels draws = nllOf labels
    ∧ (∃ d1 d2 : ℚ,
        maskedLabels rate numClasses [lab] [d1] ≠ maskedLabels rate numClasses [lab] [d2])
    ∧ (∃ f : List Nat → ℚ, ∃ d1 d2 : ℚ,
        compute_nll_model f rate numClasses [lab] [d1]
          ≠ compute_nll_model f rate numClasses [lab] [d2]) := by
  have hzero := maskedLabels_zero_rate numClasses labels draws hlen hpos
  refine ⟨hzero, by simp [compute_nll_model, hzero], ⟨0, rate, ?_⟩, ?_⟩
  · simp only [maskedLabels, List.zipWith_cons_cons, List.zipWith_nil_right, hr, if_pos,
      lt_irrefl, if_false]
    simp [hlab.symm]
  · refine ⟨fun ls => if ls = [numClasses] then 1 else 0, 0, rate, ?_⟩
    simp only [compute_nll_model, maskedLabels, List.zipWith_cons_cons,
      List.zipWith_nil_right, hr, if_pos, lt_irrefl, if_false]
    simp [hlab]

/-- Witness for C10 at `cond_drop_rate = 1/2`, `num_classes = 1000`,
label `0`, one sample with ambient draw `0`. -/
theorem compute_nll_randomness_witness :
    maskedLabels 0 1000 [0] [(0 : ℚ)] = [0]
    ∧ compute_nll_model (fun _ => 7) 0 1000 [0] [(0 : ℚ)] = (fun _ : List Nat => (7 : ℚ)) [0]
    ∧ (∃ d1 d2 : ℚ, maskedLabels (1 / 2) 1000 [0] [d1] ≠ maskedLabels (1 / 2) 1000 [0] [d2])
    ∧ (∃ f : List Nat → ℚ, ∃ d1 d2 : ℚ,
        compute_nll_model f (1 / 2) 1000 [0] [d1] ≠ compute_nll_model f (1 / 2) 1000 [0] [d2]) :=
  compute_nll_randomness (1 / 2) 1000 0 [0] [(0 : ℚ)] (fun _ => 7) rfl
    (by intro d hd; simp at hd; simp [hd]) (by norm_num) (by decide)

/-! ## Seeded determinism (`autoregressive_infer_cfg`, lines 148-206)

The run holds two pseudo-random streams: the model-instance generator
`self.rng` (deterministically reseeded by `manual_seed(g_seed)` when a seed
is supplied, line 149) and the process-global torch generator (used by the
sampling helpers when `rng is None`).  The PRNG itself is external state
(torch), abstracted as a seed function and a state-transition function. -/

structure PrngImpl where
  seedFn : Nat → Nat
  next : Nat → Nat × Nat

/-- The two generator states visible to one call. -/
structure RunState where
  modelRng : Nat
  globalRng : Nat

/-- One draw: when a seed was supplied (`rng = self.rng`) the model-instance
stream is consumed, otherwise (`rng = None`) the global stream is. -/
def drawRand (P : PrngImpl) (seeded : Bool) (st : RunState) : Nat × RunState :=
  if seeded then ((P.next st.modelRng).1, { st with modelRng := (P.next st.modelRng).2 })
  else ((P.next st.globalRng).1, { st with globalRng := (P.next st.globalRng).2 })

/-- The scale loop of `autoregressive_infer_cfg` (lines 167-200), restricted
to its stochastic trace: at each scale the combined CFG logits are formed and
`sample_with_top_k_top_p_` (external helper, `models/helpers.py`) draws the
scale's tokens from the active generator; `sampler` abstracts that helper as
a function of the scale's combined-logits row and one generator draw. -/
def inferCfgLoop (P : PrngImpl) (sampler : (Nat → ℚ) → Nat → Nat) (env : GenEnv)
    (B S : Nat) (cfg : ℚ) (seeded : Bool) :
    List Nat → Nat → (List Nat × RunState) → (List Nat × RunState)
  | [], _, acc => acc
  | _pn :: rest, si, acc =>
    let ds := drawRand P seeded acc.2
    inferCfgLoop P sampler env B S cfg seeded rest (si + 1)
      (acc.1 ++ [sampler (fun i => combinedLogits env B S cfg si i) ds.1], ds.2)

/-- Stochastic trace of one `autoregressive_infer_cfg` call: seed handling
(line 148-149: a supplied seed reseeds the model-instance generator and
selects it for all sampling), label sampling when the label is unset (lines
151-152: one `torch.multinomial` draw from the active generator), then the
scale loop.  Returns the sampled label, the per-scale token trace, and the
final generator states. -/
def inferCfgRun (P : PrngImpl) (sampler : (Nat → ℚ) → Nat → Nat) (env : GenEnv)
    (B S numClasses : Nat) (pns : List Nat) (cfg : ℚ)
    (gSeed : Option Nat) (labelB : Option Nat) (st0 : RunState) :
    (Nat × List Nat) × RunState :=
  let seeded := gSeed.isSome
  let st1 : RunState := match gSeed with
    | some g => { st0 with modelRng := P.seedFn g }
    | none => st0
  let labst : Nat × RunState := match labelB with
    | some l => (l, st1)
    | none =>
      let ds := drawRand P seeded st1
      (ds.1 % numClasses, ds.2)
  let res := inferCfgLoop P sampler env B S cfg seeded pns 0 ([], labst.2)
  ((labst.1, res.1), res.2)

theorem drawRand_seeded_congr (P : PrngImpl) (s1 s2 : RunState)
    (h : s1.modelRng = s2.modelRng) :
    (drawRand P true s1).1 = (drawRand P true s2).1
    ∧ (drawRand P true s1).2.modelRng = (drawRand P true s2).2.modelRng := by
  simp [drawRand, h]

theorem inferCfgLoop_seeded_congr (P : PrngImpl) (sampler : (Nat → ℚ) → Nat → Nat)
    (env : GenEnv) (B S : Nat) (cfg : ℚ) :
    ∀ (pns : List Nat) (si : Nat) (out : List Nat) (s1 s2 : RunState),
      s1.modelRng = s2.modelRng →
      (inferCfgLoop P sampler env B S cfg true pns si (out, s1)).1
        = (inferCfgLoop P sampler env B S cfg true pns si (out, s2)).1
      ∧ (inferCfgLoop P sampler env B S cfg true pns si (out, s1)).2.modelRng
        = (inferCfgLoop P sampler env B S cfg true pns si (out, s2)).2.modelRng := by
  intro pns
  induction pns with
  | nil => intro si out s1 s2 h; exact ⟨rfl, h⟩
  | cons pn rest ih =>
    intro si out s1 s2 h
    have hd := drawRand_seeded_congr P s1 s2 h
    simp only [inferCfgLoop]
    rw [hd.1]
    exact ih (si + 1) (out ++ [sampler (fun i => combinedLogits env B S cfg si i)
      (drawRand P true s2).1]) (drawRand P true s1).2 (drawRand P true s2).2 hd.2

/-- C7: two `autoregressive_infer_cfg` calls that supply the same seed `g`
and the same configuration produce the identical sampled label and the
identical token trace, regardless of the prior states of the model-instance
generator and of the process-global generator: `manual_seed(g)` replaces the
model-instance stream with one determined by `g` alone, and every sampling
site (label sampling and per-scale token sampling) reads that stream. -/
theorem infer_cfg_seed_determinism (P : PrngImpl) (sampler : (Nat → ℚ) → Nat → Nat)
    (env : GenEnv) (B S numClasses : Nat) (pns : List Nat) (cfg : ℚ) (g : Nat)
    (labelB : Option Nat) (stA stB : RunState) :
    (inferCfgRun P sampler env B S numClasses pns cfg (some g) labelB stA).1
      = (inferCfgRun P sampler env B S numClasses pns cfg (some g) labelB stB).1 := by
  cases labelB with
  | some l =>
    have h := inferCfgLoop_seeded_congr P sampler env B S cfg pns 0 []
      { stA with modelRng := P.seedFn g } { stB with modelRng := P.seedFn g } rfl
    simp only [inferCfgRun, Option.isSome_some]
    rw [h.1]
  | none =>
    have hd := drawRand_seeded_congr P
      { stA with modelRng := P.seedFn g } { stB with modelRng := P.seedFn g } rfl
    have h := inferCfgLoop_seeded_congr P sampler env B S cfg pns 0 []
      (drawRand P true { stA with modelRng := P.seedFn g }).2
      (drawRand P true { stB with modelRng := P.seedFn g }).2 hd.2
    simp only [inferCfgRun, Option.isSome_some]
    rw [hd.1, h.1]

end VarModel
